import Mathlib

/-!
Shallow embedding of the `control-systems` simulation engine.

Machine reals (`f64`) are modelled by `ℚ`; the IEEE value `+infinity`,
which the engine uses as a next-event time meaning "never needs another
call", is modelled by the extra constructor `ETime.inf`.  Fixed-size
numeric vectors (`VecN<N>`) are modelled by `List ℚ` with elementwise
addition and scalar multiplication.  Stateful Rust methods become
explicit state-passing functions; the `assert!` in `HeldSystem::update`
becomes an explicit `abort` result constructor.
-/

/-- Elementwise vector addition (`Add` on `VecN`). -/
def vadd (a b : List ℚ) : List ℚ := List.zipWith (· + ·) a b

/-- Vector-times-scalar multiplication (`VecN * f64`). -/
def vsmul (a : List ℚ) (c : ℚ) : List ℚ := a.map (· * c)

/-- Scalar-times-vector multiplication (`f64 * &VecN`). -/
def smulv (c : ℚ) (a : List ℚ) : List ℚ := a.map (c * ·)

/-- The zero vector of dimension `n` (`VecN::zeros()`). -/
def vzero (n : Nat) : List ℚ := List.replicate n 0

/-- An event time: a finite instant, or `+infinity` ("never needs another
update on its own"). -/
inductive ETime where
  | fin : ℚ → ETime
  | inf : ETime
deriving DecidableEq, Repr

/-- Minimum (`f64::min`) of two event times (`next1.min(next2)`). -/
def ETime.min : ETime → ETime → ETime
  | .inf, b => b
  | .fin a, .inf => .fin a
  | .fin a, .fin b => .fin (Min.min a b)

/-- Minimum (`f64::min`) of an event time and a finite time
(`next_time.min(time + max_timestep)` in `simulate`). -/
def ETime.minQ : ETime → ℚ → ℚ
  | .inf, q => q
  | .fin a, q => Min.min a q

/-- Order on event times, with `inf` as the top element. -/
def ETime.le : ETime → ETime → Prop
  | _, .inf => True
  | .inf, .fin _ => False
  | .fin a, .fin b => a ≤ b

/-- A finite time is strictly below an event time. -/
def ETime.ltQ (q : ℚ) : ETime → Prop
  | .inf => True
  | .fin a => q < a

/-- The uniform `System` contract: `update` advances the state and
returns the next requested instant; `get_output` reads the current
output (the variant of the trait without a time argument ignores it). -/
structure SysM (σ I O : Type) where
  update : σ → ℚ → I → σ × ETime
  getOutput : σ → ℚ → O

/-- The time-varying input provider `Param`: a current value plus a
time-sorted step schedule and a cursor into it. -/
structure Param (V : Type) where
  value : V
  steps : List (ℚ × V)
  nextStep : Nat

/-- The schedule advance `Param::update`: if the next entry is due
(`current_time >= *time`), advance the cursor and adopt its value,
reporting `true`; otherwise report `false`. -/
def Param.update {V : Type} (p : Param V) (currentTime : ℚ) : Param V × Bool :=
  match p.steps.get? p.nextStep with
  | some tv =>
      if tv.1 ≤ currentTime then
        (⟨tv.2, p.steps, p.nextStep + 1⟩, true)
      else (p, false)
  | none => (p, false)

/-- One driver-loop snapshot `{instant, input, output}`. -/
structure Sample (I O : Type) where
  instant : ℚ
  input : I
  output : O
deriving DecidableEq, Repr

/-- The body of one `simulate` iteration's time advance:
`time = next_time.min(time + max_timestep)`. -/
def stepTime (time maxTimestep : ℚ) (nextTime : ETime) : ℚ :=
  nextTime.minQ (time + maxTimestep)

/-- The `System::simulate` loop, with explicit fuel: while
`time < total_time`, refresh the input from the schedule, `update`,
emit a `Sample`, and advance `time = next_time.min(time + max_timestep)`.
Returns `none` when the fuel runs out before the loop condition fails. -/
def simulateAux {σ I O : Type} (sys : SysM σ I O) :
    Nat → σ → ℚ → ℚ → ℚ → Param I → List (Sample I O) →
    Option (List (Sample I O))
  | 0, _, time, totalTime, _, _, acc =>
    if time < totalTime then none else some acc
  | fuel + 1, s, time, totalTime, maxTimestep, p, acc =>
    if time < totalTime then
      let p' := (p.update time).1
      let r := sys.update s time p'.value
      let sample : Sample I O := ⟨time, p'.value, sys.getOutput r.1 time⟩
      simulateAux sys fuel r.1 (stepTime time maxTimestep r.2)
        totalTime maxTimestep p' (acc ++ [sample])
    else some acc

/-- Runs `System::simulate` from `time = 0` with an empty sample accumulator. -/
def simulate {σ I O : Type} (sys : SysM σ I O) (fuel : Nat) (s : σ)
    (totalTime maxTimestep : ℚ) (p : Param I) :
    Option (List (Sample I O)) :=
  simulateAux sys fuel s 0 totalTime maxTimestep p []

/-- The `Gain` block: output is the input scaled by a fixed gain; never requests
another update (`f64::INFINITY`).  The state is the stored output. -/
def gainSysM (g : ℚ) : SysM ℚ ℚ ℚ where
  update := fun _ _ input => (input * g, .inf)
  getOutput := fun s _ => s

/-- The `UnitSystem` block: copies the input to the output; never requests another
update. -/
def unitSysM : SysM ℚ ℚ ℚ where
  update := fun _ _ input => (input, .inf)
  getOutput := fun s _ => s

/-- The update of `SeriesSystem` as a `SysM`: update `first` with the input,
update `second` with the fresh output of `first`, return the minimum of the
two next-event times; `get_output` delegates to `second`. -/
def seriesSysM {σ₁ σ₂ I M O : Type} (first : SysM σ₁ I M)
    (second : SysM σ₂ M O) : SysM (σ₁ × σ₂) I O where
  update := fun s time input =>
    let r₁ := first.update s.1 time input
    let r₂ := second.update s.2 time (first.getOutput r₁.1 time)
    ((r₁.1, r₂.1), r₁.2.min r₂.2)
  getOutput := fun s time => second.getOutput s.2 time

/-- The update of `ClosedLoop` as a `SysM`: compute
`error = input - feedback.get_output(time)` (pre-update feedback
output), update `forward` with the error, update `feedback` with
the fresh output of `forward`, return the minimum of the two next-event
times; `get_output` delegates to `forward`.  `sub` is the `Sub`
instance on the input type. -/
def cloopSysM {σ₁ σ₂ I O : Type} (forward : SysM σ₁ I O)
    (feedback : SysM σ₂ O I) (sub : I → I → I) : SysM (σ₁ × σ₂) I O where
  update := fun s time input =>
    let error := sub input (feedback.getOutput s.2 time)
    let r₁ := forward.update s.1 time error
    let r₂ := feedback.update s.2 time (forward.getOutput r₁.1 time)
    ((r₁.1, r₂.1), r₁.2.min r₂.2)
  getOutput := fun s time => forward.getOutput s.1 time

/-- A `ContinuousSystem`: a derivative function of (time, state, input)
and a maximum admissible timestep.  The state vector is passed
explicitly. -/
structure ContSysM where
  getDerivative : ℚ → List ℚ → List ℚ → List ℚ
  maxTimestep : ℚ

/-- Explicit Euler step `RectangularIntegrator::integrate`:
`state' = state + get_derivative(t, state, input) * dt`. -/
def rectangularIntegrate (sys : ContSysM) (state : List ℚ) (t dt : ℚ)
    (input : List ℚ) : List ℚ :=
  vadd state (vsmul (sys.getDerivative t state input) dt)

/-- The trapezoidal step `TrapezoidalIntegrator::integrate`: computes
`der = get_derivative(t, state, input)`, assigns
`state' = (previous_derivative + der) * dt * 0.5`, and stores `der` as
the new retained derivative.  Returns `(state', new previous_derivative)`. -/
def trapezoidalIntegrate (sys : ContSysM) (previousDerivative state : List ℚ)
    (t dt : ℚ) (input : List ℚ) : List ℚ × List ℚ :=
  let der := sys.getDerivative t state input
  (vsmul (vsmul (vadd previousDerivative der) dt) (1/2), der)

/-- The classical step `RungeKutta4::integrate`: four derivative evaluations and the
classical weighted update
`state' = state + (k1 + 2*k2 + 2*k3 + k4) * (dt / 6)`. -/
def rungeKutta4Integrate (sys : ContSysM) (state : List ℚ) (t dt : ℚ)
    (input : List ℚ) : List ℚ :=
  let h2 := dt * (1/2)
  let k1 := sys.getDerivative t state input
  let k2 := sys.getDerivative (t + h2) (vadd state (vsmul k1 h2)) input
  let k3 := sys.getDerivative (t + h2) (vadd state (vsmul k2 h2)) input
  let k4 := sys.getDerivative (t + dt) (vadd state (vsmul k3 dt)) input
  vadd state (vsmul (vadd (vadd (vadd k1 (smulv 2 k2)) (smulv 2 k3)) k4) (dt / 6))

/-- The `ContinuousSystem` view of `PureIntegrator`: the derivative is the
input itself, for every time and state. -/
def pureIntegratorModel (maxDt : ℚ) : ContSysM where
  getDerivative := fun _ _ input => input
  maxTimestep := maxDt

/-- A generic integrator strategy with internal state `IntSt`
(`TrapezoidalIntegrator` retains the previous derivative; the other two
are stateless).  `integrate` maps (integrator state, system state) to
their successors. -/
structure IntegratorM (IntSt : Type) where
  integrate : IntSt → ContSysM → List ℚ → ℚ → ℚ → List ℚ → List ℚ × IntSt

/-- The mutable fields of an `IntegratedSystem`: the wrapped system's
state vector, the integrator's internal state, and `last_time`. -/
structure IntegratedSystemState (IntSt : Type) where
  sysState : List ℚ
  integratorState : IntSt
  lastTime : ℚ
deriving DecidableEq, Repr

/-- The wrapper update `IntegratedSystem::update`: `dt = time - last_time`, set
`last_time = time`, delegate the step to the integrator, and return
`time + max_timestep` as the next requested instant. -/
def integratedUpdate {IntSt : Type} (sys : ContSysM) (integ : IntegratorM IntSt)
    (s : IntegratedSystemState IntSt) (time : ℚ) (input : List ℚ) :
    IntegratedSystemState IntSt × ℚ :=
  let maxDt := sys.maxTimestep
  let dt := time - s.lastTime
  let (st', is') := integ.integrate s.integratorState sys s.sysState time dt input
  (⟨st', is', time⟩, time + maxDt)

/-- The `RectangularIntegrator` packaged as a (stateless) `IntegratorM`. -/
def rectangularIntegratorM : IntegratorM Unit where
  integrate := fun _ sys state t dt input =>
    (rectangularIntegrate sys state t dt input, ())

/-- Machine epsilon of `f64` (`f64::EPSILON` = 2⁻⁵²), exactly. -/
def f64Epsilon : ℚ := 1 / 2 ^ 52

/-- A holder strategy over values `Out` with internal state `H`:
`hold` ingests a sample, `getOutput` answers a continuous-time query. -/
structure HolderM (Out H : Type) where
  hold : H → ℚ → Out → H
  getOutput : H → ℚ → Out

/-- The fields of a `ZeroOrderHold`. -/
structure ZeroOrderHoldState (Out : Type) where
  lastTime : ℚ
  lastInput : Out
deriving DecidableEq, Repr

/-- The `ZeroOrderHold` strategy: `hold` records time and value; `get_output` returns
the most recently held value regardless of the query time. -/
def zeroOrderHoldM (Out : Type) : HolderM Out (ZeroOrderHoldState Out) where
  hold := fun _ time input => ⟨time, input⟩
  getOutput := fun h _ => h.lastInput

/-- The fields of a `FirstOrderHold` (the scratch output buffer is
omitted: `get_output` returns the interpolated value by copy, which is
behaviourally identical for a single-threaded caller). -/
structure FirstOrderHold where
  lastTime : ℚ
  lastInput : List ℚ
  currTime : ℚ
  currInput : List ℚ
  initialized : Bool
deriving DecidableEq, Repr

/-- The constructor `FirstOrderHold::new()`: both sample slots zero-initialized at time
0, not yet initialized. -/
def FirstOrderHold.new (n : Nat) : FirstOrderHold :=
  ⟨0, vzero n, 0, vzero n, false⟩

/-- The ingest `FirstOrderHold::hold`: the first call fills the current slot and
sets the flag; later calls shift current to last and store the new
sample as current. -/
def FirstOrderHold.hold (h : FirstOrderHold) (time : ℚ) (input : List ℚ) :
    FirstOrderHold :=
  if !h.initialized then
    ⟨h.lastTime, h.lastInput, time, input, true⟩
  else
    ⟨h.currTime, h.currInput, time, input, true⟩

/-- The query `FirstOrderHold::get_output`: not initialized → current (zero)
value; degenerate interval (`|curr_time - last_time| < f64::EPSILON`) →
current value; query at or before `last_time` → last value; at or after
`curr_time` → current value; strictly inside → linear interpolation
`last*(1-τ) + curr*τ` with `τ = (q - last_time)/(curr_time - last_time)`. -/
def FirstOrderHold.getOutput (h : FirstOrderHold) (queryTime : ℚ) : List ℚ :=
  if !h.initialized then h.currInput
  else if |h.currTime - h.lastTime| < f64Epsilon then h.currInput
  else if queryTime ≤ h.lastTime then h.lastInput
  else if h.currTime ≤ queryTime then h.currInput
  else
    let tau := (queryTime - h.lastTime) / (h.currTime - h.lastTime)
    vadd (vsmul h.lastInput (1 - tau)) (vsmul h.currInput tau)

/-- The `FirstOrderHold` packaged as a `HolderM`. -/
def firstOrderHoldM : HolderM (List ℚ) FirstOrderHold where
  hold := FirstOrderHold.hold
  getOutput := FirstOrderHold.getOutput

/-- A `DiscreteSystem`: transition function, output read from the state,
and the fixed sampling period (`timestep`). -/
structure DiscreteSys (St In Out : Type) where
  nextState : ℚ → St → In → St
  output : St → Out
  timestep : ℚ

/-- The mutable fields of a `HeldSystem`: the wrapped discrete state,
the holder's state and `last_time`. -/
structure HeldState (St H : Type) where
  sysState : St
  holderState : H
  lastTime : ℚ
deriving DecidableEq, Repr

/-- The outcome of `HeldSystem::update`: a new state with the returned
next-event time, or the fatal `assert!` failure. -/
inductive HeldResult (St H : Type) where
  | ok : HeldState St H → ℚ → HeldResult St H
  | abort : String → HeldResult St H
deriving DecidableEq

/-- The wrapper update `HeldSystem::update`: with `req_dt = timestep` and
`dt = time - last_time`: if `dt < req_dt`, change nothing and return
`last_time + dt`; else if `dt - req_dt < req_dt * 1e-5` apply the
transition, feed the new output to the holder, and return
`last_time + 2*dt`; otherwise the `assert!` aborts.  Note the source
never writes `last_time`. -/
def heldUpdate {St In Out H : Type} (ds : DiscreteSys St In Out)
    (hm : HolderM Out H) (s : HeldState St H) (time : ℚ) (input : In) :
    HeldResult St H :=
  let reqDt := ds.timestep
  let dt := time - s.lastTime
  if dt < reqDt then .ok s (s.lastTime + dt)
  else if dt - reqDt < reqDt * (1/100000) then
    let st' := ds.nextState time s.sysState input
    .ok ⟨st', hm.hold s.holderState time (ds.output st'), s.lastTime⟩
      (s.lastTime + 2 * dt)
  else .abort "Requested event was not triggered"

/-- The discrete system used by the repository's own tests
(`MockDiscrete`, one-dimensional): `next_state = state + input`,
`output = state`, period `p`. -/
def mockDiscrete (p : ℚ) : DiscreteSys ℚ ℚ ℚ where
  nextState := fun _ state input => state + input
  output := fun s => s
  timestep := p

/-- The clamp-and-interpolate policy exactly as the spec words it (the
refinement target for `FirstOrderHold.getOutput`): a query at or before
`t₀` clamps to `v₀`; at or after `t₁` clamps to `v₁`; strictly inside it
returns `v₀*(1-τ) + v₁*τ` with `τ = (q - t₀)/(t₁ - t₀)`. -/
def specClampLerp (t₀ : ℚ) (v₀ : List ℚ) (t₁ : ℚ) (v₁ : List ℚ) (q : ℚ) :
    List ℚ :=
  if q ≤ t₀ then v₀
  else if t₁ ≤ q then v₁
  else
    let tau := (q - t₀) / (t₁ - t₀)
    vadd (vsmul v₀ (1 - tau)) (vsmul v₁ tau)

/-- The repository's test `HeldSystem` (`MockDiscrete` with period `1/5`
under a zero-order hold) as a total `SysM`.  The abort arm of
`heldUpdate` is mapped to a placeholder; every run examined below stays
in the not-yet-due branch and never reaches it. -/
def heldMockSysM : SysM (HeldState ℚ (ZeroOrderHoldState ℚ)) ℚ ℚ where
  update := fun s time input =>
    match heldUpdate (mockDiscrete (1/5)) (zeroOrderHoldM ℚ) s time input with
    | .ok s' next => (s', .fin next)
    | .abort _ => (s, .inf)
  getOutput := fun s time => (zeroOrderHoldM ℚ).getOutput s.holderState time

/-- The repository's end-to-end closed loop: forward `Gain 0.5`,
identity (`UnitSystem`) feedback, subtraction on rationals. -/
def cloopExample : SysM (ℚ × ℚ) ℚ ℚ :=
  cloopSysM (gainSysM (1/2)) unitSysM (fun a b => a - b)

lemma ETime.min_le_left (a b : ETime) : (a.min b).le a := by
  cases a <;> cases b <;> simp [ETime.min, ETime.le]

lemma ETime.min_le_right (a b : ETime) : (a.min b).le b := by
  cases a <;> cases b <;> simp [ETime.min, ETime.le]

lemma ETime.min_eq_or (a b : ETime) : a.min b = a ∨ a.min b = b := by
  cases a with
  | inf => exact Or.inr rfl
  | fin x =>
    cases b with
    | inf => exact Or.inl rfl
    | fin y =>
      rcases le_total x y with h | h
      · exact Or.inl (by simp [ETime.min, min_eq_left h])
      · exact Or.inr (by simp [ETime.min, min_eq_right h])

lemma vadd_vzero_of_length {a : List ℚ} {n : Nat} (h : a.length = n) :
    vadd (vzero n) a = a := by
  subst h
  induction a with
  | nil => rfl
  | cons x xs ih => simp [vzero, vadd, List.replicate] at ih ⊢; exact ih

lemma vsmul_length (a : List ℚ) (c : ℚ) : (vsmul a c).length = a.length := by
  simp [vsmul]

lemma rk4_weights_pure (u : List ℚ) (dt : ℚ) :
    vsmul (vadd (vadd (vadd u (smulv 2 u)) (smulv 2 u)) u) (dt / 6)
      = vsmul u dt := by
  induction u with
  | nil => rfl
  | cons x xs ih =>
    simp only [vadd, vsmul, smulv, List.map_cons, List.zipWith_cons_cons] at ih ⊢
    refine List.cons_eq_cons.mpr ⟨by ring, ih⟩

lemma trap_double_pure (u : List ℚ) (dt : ℚ) :
    vsmul (vsmul (vadd u u) dt) (1/2) = vsmul u dt := by
  induction u with
  | nil => rfl
  | cons x xs ih =>
    simp only [vadd, vsmul, List.map_cons, List.zipWith_cons_cons] at ih ⊢
    refine List.cons_eq_cons.mpr ⟨by ring, ih⟩

lemma simulateAux_inf_isSome {σ I O : Type} (sys : SysM σ I O)
    (hinf : ∀ s t i, (sys.update s t i).2 = ETime.inf) :
    ∀ (fuel : Nat) (s : σ) (startTime totalTime maxTimestep : ℚ)
      (p : Param I) (acc : List (Sample I O)),
      0 < maxTimestep → totalTime ≤ startTime + fuel * maxTimestep →
      (simulateAux sys fuel s startTime totalTime maxTimestep p acc).isSome
        = true := by
  intro fuel
  induction fuel with
  | zero =>
    intro s startTime totalTime maxTimestep p acc _ hle
    have : ¬ startTime < totalTime := by
      simp only [Nat.cast_zero, zero_mul, add_zero] at hle; linarith
    simp [simulateAux, this]
  | succ n ih =>
    intro s startTime totalTime maxTimestep p acc hpos hle
    simp only [simulateAux]
    by_cases hlt : startTime < totalTime
    · simp only [hlt, if_true]
      have hnext := hinf s startTime ((p.update startTime).1).value
      rw [hnext]
      apply ih
      · exact hpos
      · have : startTime + (↑(n + 1)) * maxTimestep
            = stepTime startTime maxTimestep ETime.inf + ↑n * maxTimestep := by
          simp [stepTime, ETime.minQ]; ring
        calc totalTime ≤ startTime + (↑(n + 1)) * maxTimestep := hle
          _ = stepTime startTime maxTimestep ETime.inf + ↑n * maxTimestep :=
            this
    · simp [hlt]

lemma simulateAux_stalled {σ I O : Type} (sys : SysM σ I O) (s : σ)
    (p : Param I) (time totalTime maxT : ℚ) (hlt : time < totalTime)
    (hp : (p.update time).1 = p)
    (hs : (sys.update s time p.value).1 = s)
    (hn : stepTime time maxT (sys.update s time p.value).2 = time) :
    ∀ (fuel : Nat) (acc : List (Sample I O)),
      simulateAux sys fuel s time totalTime maxT p acc = none := by
  intro fuel
  induction fuel with
  | zero => intro acc; simp [simulateAux, hlt]
  | succ n ih =>
    intro acc
    simp only [simulateAux, hlt, if_true, hp, hs, hn]
    exact ih _

/-- C1: `IntegratedSystem::update` does store the call time in
`last_time` (checked at `t = 3/10`), but `HeldSystem::update` never
writes `last_time`: after a valid trigger at `t = 1/10` (period `1/10`)
the stored `last_time` is still `0`, not `1/10`; consequently calling
`update` again at the very next-event time the system itself returned
(`1/5`) trips the `assert!` and aborts. -/
theorem heldSystem_last_time_not_stored :
    (integratedUpdate (pureIntegratorModel (1/10)) rectangularIntegratorM
        ⟨[0], (), 0⟩ (3/10) [2]).1.lastTime = 3/10
    ∧ heldUpdate (mockDiscrete (1/10)) (zeroOrderHoldM ℚ) ⟨0, ⟨0, 0⟩, 0⟩
        (1/10) 1 = .ok ⟨1, ⟨1/10, 1⟩, 0⟩ (1/5)
    ∧ ((0 : ℚ) ≠ 1/10)
    ∧ heldUpdate (mockDiscrete (1/10)) (zeroOrderHoldM ℚ) ⟨1, ⟨1/10, 1⟩, 0⟩
        (1/5) 1 = .abort "Requested event was not triggered" := by
  refine ⟨rfl, ?_, by norm_num, ?_⟩ <;>
    norm_num [heldUpdate, mockDiscrete, zeroOrderHoldM]

/-- C4: `HeldSystem::update` aborts with "Requested event was not
triggered" iff `dt = t - last_time` is at least the period and the
mismatch `dt - period` reaches the relative tolerance
`period * 1e-5`; on a valid trigger it applies the transition function,
feeds the new output into the holder, and returns `last_time + 2*dt`. -/
theorem heldUpdate_trigger_contract {St In Out H : Type}
    (ds : DiscreteSys St In Out) (hm : HolderM Out H) (s : HeldState St H)
    (time : ℚ) (input : In) :
    (heldUpdate ds hm s time input = .abort "Requested event was not triggered"
      ↔ ds.timestep ≤ time - s.lastTime
        ∧ ds.timestep * (1/100000) ≤ time - s.lastTime - ds.timestep)
    ∧ (ds.timestep ≤ time - s.lastTime →
        time - s.lastTime - ds.timestep < ds.timestep * (1/100000) →
        heldUpdate ds hm s time input
          = .ok ⟨ds.nextState time s.sysState input,
                 hm.hold s.holderState time
                   (ds.output (ds.nextState time s.sysState input)),
                 s.lastTime⟩
              (s.lastTime + 2 * (time - s.lastTime))) := by
  constructor
  · simp only [heldUpdate]
    split_ifs with h1 h2
    · simp only [reduceCtorEq, false_iff, not_and, not_le]
      intro hge
      linarith
    · simp only [reduceCtorEq, false_iff, not_and, not_le]
      intro _
      linarith
    · simp only [HeldResult.abort.injEq, true_iff]
      exact ⟨not_lt.mp h1, not_lt.mp h2⟩
  · intro hge hlt
    simp only [heldUpdate]
    rw [if_neg (not_lt.mpr hge), if_pos hlt]

/-- C4 witness: a valid trigger at exactly the period (`MockDiscrete`
with period `1/5` under a zero-order hold, from the fresh state): the
transition fires (`0 + 1 = 1`), the hold records `(1/5, 1)`, and the
returned next-event time is `0 + 2*(1/5) = 2/5`. -/
theorem heldUpdate_trigger_contract_witness :
    heldUpdate (mockDiscrete (1/5)) (zeroOrderHoldM ℚ) ⟨0, ⟨0, 0⟩, 0⟩
      (1/5) 1 = .ok ⟨1, ⟨1/5, 1⟩, 0⟩ (2/5) := by
  have h := (heldUpdate_trigger_contract (mockDiscrete (1/5))
    (zeroOrderHoldM ℚ) ⟨0, ⟨0, 0⟩, 0⟩ (1/5) 1).2
    (by norm_num [mockDiscrete]) (by norm_num [mockDiscrete])
  rw [h]
  norm_num [mockDiscrete, zeroOrderHoldM]

/-- C5: when the elapsed time `dt = t - last_time` is strictly below the
declared period, `HeldSystem::update` leaves the entire state (discrete
state and holder alike) unchanged and returns `last_time + dt`. -/
theorem heldUpdate_not_yet_due_frame {St In Out H : Type}
    (ds : DiscreteSys St In Out) (hm : HolderM Out H) (s : HeldState St H)
    (time : ℚ) (input : In)
    (h : time - s.lastTime < ds.timestep) :
    heldUpdate ds hm s time input
      = .ok s (s.lastTime + (time - s.lastTime)) := by
  simp only [heldUpdate]
  rw [if_pos h]

/-- C5 witness: `MockDiscrete` with period `1/5` called at `t = 1/10`
(not yet due): the state is returned untouched with next time
`0 + (1/10 - 0)`. -/
theorem heldUpdate_not_yet_due_frame_witness :
    heldUpdate (mockDiscrete (1/5)) (zeroOrderHoldM ℚ) ⟨0, ⟨0, 0⟩, 0⟩
      (1/10) 1 = .ok ⟨0, ⟨0, 0⟩, 0⟩ (0 + (1/10 - 0)) :=
  heldUpdate_not_yet_due_frame (mockDiscrete (1/5)) (zeroOrderHoldM ℚ)
    ⟨0, ⟨0, 0⟩, 0⟩ (1/10) 1 (by norm_num [mockDiscrete])

/-- C10: in the not-yet-due branch the returned next-event time
`last_time + dt` equals, in exact arithmetic, the call time `t` itself —
the branch never requests a revisit strictly later than the current
instant. -/
theorem heldUpdate_not_yet_due_returns_call_time {St In Out H : Type}
    (ds : DiscreteSys St In Out) (hm : HolderM Out H) (s : HeldState St H)
    (time : ℚ) (input : In)
    (h : time - s.lastTime < ds.timestep) :
    heldUpdate ds hm s time input
      = .ok s (s.lastTime + (time - s.lastTime))
    ∧ s.lastTime + (time - s.lastTime) = time := by
  constructor
  · simp only [heldUpdate]
    rw [if_pos h]
  · ring

/-- C10 witness: `MockDiscrete` with period `1/5`, `last_time = 1/10`
(a state with nonzero `last_time`), called at `t = 1/4 < 1/10 + 1/5`:
the returned next-event time is exactly `1/4`. -/
theorem heldUpdate_not_yet_due_returns_call_time_witness :
    heldUpdate (mockDiscrete (1/5)) (zeroOrderHoldM ℚ) ⟨0, ⟨0, 0⟩, 1/10⟩
      (1/4) 1 = .ok ⟨0, ⟨0, 0⟩, 1/10⟩ (1/10 + (1/4 - 1/10))
    ∧ (1/10 : ℚ) + (1/4 - 1/10) = 1/4 :=
  heldUpdate_not_yet_due_returns_call_time (mockDiscrete (1/5))
    (zeroOrderHoldM ℚ) ⟨0, ⟨0, 0⟩, 1/10⟩ (1/4) 1 (by norm_num [mockDiscrete])

/-- C6: every `TrapezoidalIntegrator::integrate` call sets the new state
to `(previous_derivative + der) * dt * 0.5` where
`der = get_derivative(t, state, input)`, and stores `der` as the new
retained derivative; concretely (state `[1]`, previous derivative `[0]`,
derivative `[2]`, `dt = 1`) the new state is `[1]`, not the accumulated
`state + (prev + der) * dt * 0.5 = [2]`. -/
theorem trapezoidal_assigns_averaged_term :
    (∀ (sys : ContSysM) (previousDerivative state : List ℚ) (t dt : ℚ)
       (input : List ℚ),
      trapezoidalIntegrate sys previousDerivative state t dt input
        = (vsmul (vsmul (vadd previousDerivative
              (sys.getDerivative t state input)) dt) (1/2),
           sys.getDerivative t state input))
    ∧ (trapezoidalIntegrate (pureIntegratorModel 1) [0] [1] 0 1 [2]).1 = [1]
    ∧ vadd [1] (vsmul (vsmul (vadd [0] [2]) 1) (1/2)) = [2]
    ∧ ([1] : List ℚ) ≠ [2] := by
  refine ⟨fun _ _ _ _ _ _ => rfl, ?_, ?_, by norm_num⟩ <;>
    norm_num [trapezoidalIntegrate, pureIntegratorModel, vadd, vsmul]

/-- C8: `SeriesSystem::update` and `ClosedLoop::update` both return
exactly the minimum of the next-event times produced by their two
constituents (first/forward updated before second/feedback within the
same call), for arbitrary constituent next-times including `+infinity`;
`ETime.min` is the true minimum for the event-time order. -/
theorem composite_next_time_is_min :
    (∀ (σ₁ σ₂ I M O : Type) (first : SysM σ₁ I M) (second : SysM σ₂ M O)
       (s : σ₁ × σ₂) (t : ℚ) (input : I),
      ((seriesSysM first second).update s t input).2
        = ((first.update s.1 t input).2).min
            ((second.update s.2 t
              (first.getOutput (first.update s.1 t input).1 t)).2))
    ∧ (∀ (σ₁ σ₂ I O : Type) (forward : SysM σ₁ I O) (feedback : SysM σ₂ O I)
       (sub : I → I → I) (s : σ₁ × σ₂) (t : ℚ) (input : I),
      ((cloopSysM forward feedback sub).update s t input).2
        = ((forward.update s.1 t
              (sub input (feedback.getOutput s.2 t))).2).min
            ((feedback.update s.2 t
              (forward.getOutput
                (forward.update s.1 t
                  (sub input (feedback.getOutput s.2 t))).1 t)).2))
    ∧ (∀ a b : ETime,
        (a.min b).le a ∧ (a.min b).le b ∧ (a.min b = a ∨ a.min b = b)) :=
  ⟨fun _ _ _ _ _ _ _ _ _ _ => rfl,
   fun _ _ _ _ _ _ _ _ _ _ => rfl,
   fun a b => ⟨ETime.min_le_left a b, ETime.min_le_right a b,
     ETime.min_eq_or a b⟩⟩

/-- C7: for a PureIntegrator-style model (derivative identically the
input `u`), one integration step of size `dt` from the zero state yields
exactly `u * dt` for the rectangular and RK4 integrators; the
trapezoidal integrator, with its retained derivative initialized to
zero, reaches the same `u * dt` after two consecutive equal-derivative
steps of size `dt` from the zero state. -/
theorem pure_integrator_constant_derivative_steps
    (maxDt t t₁ t₂ dt : ℚ) (u : List ℚ) :
    rectangularIntegrate (pureIntegratorModel maxDt) (vzero u.length) t dt u
      = vsmul u dt
    ∧ rungeKutta4Integrate (pureIntegratorModel maxDt) (vzero u.length) t dt u
      = vsmul u dt
    ∧ (trapezoidalIntegrate (pureIntegratorModel maxDt)
        (trapezoidalIntegrate (pureIntegratorModel maxDt) (vzero u.length)
          (vzero u.length) t₁ dt u).2
        (trapezoidalIntegrate (pureIntegratorModel maxDt) (vzero u.length)
          (vzero u.length) t₁ dt u).1
        t₂ dt u).1 = vsmul u dt := by
  refine ⟨?_, ?_, ?_⟩
  · show vadd (vzero u.length) (vsmul u dt) = vsmul u dt
    exact vadd_vzero_of_length (vsmul_length u dt)
  · show vadd (vzero u.length)
        (vsmul (vadd (vadd (vadd u (smulv 2 u)) (smulv 2 u)) u) (dt / 6))
      = vsmul u dt
    rw [rk4_weights_pure]
    exact vadd_vzero_of_length (vsmul_length u dt)
  · show vsmul (vsmul (vadd u u) dt) (1/2) = vsmul u dt
    exact trap_double_pure u dt

/-- C3 counterexample: after a single `hold(1.0, [5])` only one sample
exists, yet `get_output(0.5)` is `[5/2]`, not the current value `[5]` —
the first sample at a nonzero time interpolates against the
zero-initialized previous slot `(0, [0])` instead of returning the
current value. -/
theorem firstOrderHold_single_sample_cex :
    ((FirstOrderHold.new 1).hold 1 [5]).getOutput (1/2) = [5/2]
    ∧ ((FirstOrderHold.new 1).hold 1 [5]).getOutput (1/2) ≠ [5] := by
  have heps : ¬ (1 : ℚ) < f64Epsilon := by
    rw [not_lt, show f64Epsilon = 1 / 2 ^ 52 from rfl]
    norm_num
  constructor <;>
    norm_num [FirstOrderHold.new, FirstOrderHold.hold,
      FirstOrderHold.getOutput, heps, vzero, vadd, vsmul]

/-- C3 amended: `FirstOrderHold.get_output` follows the code's actual
policy: before any `hold` it returns the zero-initialized current value;
after exactly one sample `(t, v)` the zero-initialized pair `(0, 0⃗)`
acts as the previous sample, so it returns `v` only when
`|t| < f64::EPSILON` and otherwise clamps/interpolates between `(0, 0⃗)`
and `(t, v)`; after two samples it returns the current value when the
interval is degenerate and otherwise clamps at the endpoints and
linearly interpolates strictly inside; the spec's concrete cases with
samples `(0, [0,0])` and `(1, [2,4])` all hold. -/
theorem firstOrderHold_policy :
    (∀ (n : Nat) (q : ℚ), (FirstOrderHold.new n).getOutput q = vzero n)
    ∧ (∀ (n : Nat) (t : ℚ) (v : List ℚ) (q : ℚ),
        ((FirstOrderHold.new n).hold t v).getOutput q
          = if |t| < f64Epsilon then v else specClampLerp 0 (vzero n) t v q)
    ∧ (∀ (n : Nat) (t₀ : ℚ) (v₀ : List ℚ) (t₁ : ℚ) (v₁ : List ℚ) (q : ℚ),
        (((FirstOrderHold.new n).hold t₀ v₀).hold t₁ v₁).getOutput q
          = if |t₁ - t₀| < f64Epsilon then v₁
            else specClampLerp t₀ v₀ t₁ v₁ q)
    ∧ ((((FirstOrderHold.new 2).hold 0 [0, 0]).hold 1 [2, 4]).getOutput (1/2)
         = [1, 2]
       ∧ (((FirstOrderHold.new 2).hold 0 [0, 0]).hold 1 [2, 4]).getOutput (-1)
         = [0, 0]
       ∧ (((FirstOrderHold.new 2).hold 0 [0, 0]).hold 1 [2, 4]).getOutput 2
         = [2, 4]) := by
  have heps : ¬ (1 : ℚ) < f64Epsilon := by
    rw [not_lt, show f64Epsilon = 1 / 2 ^ 52 from rfl]
    norm_num
  refine ⟨fun n q => rfl, ?_, ?_, ?_, ?_, ?_⟩
  · intro n t v q
    simp [FirstOrderHold.new, FirstOrderHold.hold,
      FirstOrderHold.getOutput, specClampLerp, sub_zero]
  · intro n t₀ v₀ t₁ v₁ q
    simp [FirstOrderHold.new, FirstOrderHold.hold,
      FirstOrderHold.getOutput, specClampLerp]
  · norm_num [FirstOrderHold.new, FirstOrderHold.hold,
      FirstOrderHold.getOutput, heps, vadd, vsmul]
  · norm_num [FirstOrderHold.new, FirstOrderHold.hold,
      FirstOrderHold.getOutput, heps, vadd, vsmul]
  · norm_num [FirstOrderHold.new, FirstOrderHold.hold,
      FirstOrderHold.getOutput, heps, vadd, vsmul]

/-- C2 counterexample: with a positive `max_timestep = 1/10` and the
test `HeldSystem` (period `1/5`), `update` at time `0` returns
next-event time `0`, the iteration's new time
`min(next_time, time + max_timestep)` equals the old time `0` instead of
strictly exceeding it, and `simulate(1, 1/10, ...)` exhausts `30` fuel
steps (three times the `10` iterations that an advancing loop would
need) without terminating. -/
theorem simulate_not_strictly_increasing_cex :
    ((0 : ℚ) < 1/10)
    ∧ (heldMockSysM.update ⟨0, ⟨0, 0⟩, 0⟩ 0 1).2 = ETime.fin 0
    ∧ stepTime 0 (1/10) (ETime.fin 0) = 0
    ∧ ¬ ((0 : ℚ) < 0)
    ∧ simulate heldMockSysM 30 ⟨0, ⟨0, 0⟩, 0⟩ 1 (1/10) ⟨1, [], 0⟩ = none := by
  refine ⟨by norm_num, ?_, ?_, by norm_num, ?_⟩
  · norm_num [heldMockSysM, heldUpdate, mockDiscrete]
  · norm_num [stepTime, ETime.minQ]
  · exact simulateAux_stalled heldMockSysM ⟨0, ⟨0, 0⟩, 0⟩ ⟨1, [], 0⟩ 0 1
      (1/10) (by norm_num) rfl
      (by norm_num [heldMockSysM, heldUpdate, mockDiscrete])
      (by norm_num [heldMockSysM, heldUpdate, mockDiscrete, stepTime,
        ETime.minQ]) 30 []

/-- C2 amended: an iteration's new time
`min(next_time, time + max_timestep)` strictly exceeds the old time
whenever `max_timestep > 0` and the system's returned `next_time` is
`+infinity` or strictly later than the current time — but not in
general (the not-yet-due branch of `HeldSystem` returns the current time
itself, see the counterexample); for a system that always returns
`+infinity` (e.g. a static gain), `simulate(total_time, max_timestep)`
terminates within any fuel of at least `total_time / max_timestep`
iterations. -/
theorem simulate_progress_amended :
    (∀ (time maxTimestep : ℚ) (next : ETime),
      0 < maxTimestep → ETime.ltQ time next →
      time < stepTime time maxTimestep next)
    ∧ (∀ (σ I O : Type) (sys : SysM σ I O),
        (∀ s t i, (sys.update s t i).2 = ETime.inf) →
        ∀ (fuel : Nat) (s : σ) (totalTime maxTimestep : ℚ) (p : Param I),
          0 < maxTimestep → totalTime ≤ fuel * maxTimestep →
          (simulate sys fuel s totalTime maxTimestep p).isSome = true) := by
  constructor
  · intro time maxTimestep next hpos hlt
    cases next with
    | inf =>
      simp only [stepTime, ETime.minQ]
      linarith
    | fin q =>
      simp only [ETime.ltQ] at hlt
      simp only [stepTime, ETime.minQ, lt_min_iff]
      exact ⟨hlt, by linarith⟩
  · intro σ I O sys hinf fuel s totalTime maxTimestep p hpos hle
    exact simulateAux_inf_isSome sys hinf fuel s 0 totalTime maxTimestep p []
      hpos (by rw [zero_add]; exact hle)

/-- C2 witness: at time `0` with `max_timestep = 1/5` and
`next = +infinity` the new time is strictly positive, and the static
`Gain 0.5` system (which always returns `+infinity`) finishes
`simulate(1, 1/5)` within `5` iterations. -/
theorem simulate_progress_amended_witness :
    (0 : ℚ) < stepTime 0 (1/5) ETime.inf
    ∧ (simulate (gainSysM (1/2)) 5 0 1 (1/5) ⟨1, [], 0⟩).isSome = true := by
  constructor
  · exact simulate_progress_amended.1 0 (1/5) ETime.inf (by norm_num) trivial
  · exact simulate_progress_amended.2 ℚ ℚ ℚ (gainSysM (1/2))
      (fun _ _ _ => rfl) 5 0 1 (1/5) ⟨1, [], 0⟩ (by norm_num) (by norm_num)

/-- C9: the closed loop of forward `Gain 0.5` and identity feedback,
driven by constant input `1`, sampled with `max_timestep = 1/5` for a
total time of `1`, terminates and emits exactly the five samples with
outputs `1/2, 1/4, 3/8, 5/16, 11/32`, whose distances from the fixed
point `1/3` shrink geometrically with ratio `-1/2`. -/
theorem cloop_end_to_end_trace :
    simulate cloopExample 6 (0, 0) 1 (1/5) ⟨1, [], 0⟩
      = some [⟨0, 1, 1/2⟩, ⟨1/5, 1, 1/4⟩, ⟨2/5, 1, 3/8⟩,
              ⟨3/5, 1, 5/16⟩, ⟨4/5, 1, 11/32⟩]
    ∧ ((1/4 : ℚ) - 1/3 = -(1/2) * (1/2 - 1/3)
       ∧ (3/8 : ℚ) - 1/3 = -(1/2) * (1/4 - 1/3)
       ∧ (5/16 : ℚ) - 1/3 = -(1/2) * (3/8 - 1/3)
       ∧ (11/32 : ℚ) - 1/3 = -(1/2) * (5/16 - 1/3)) := by
  constructor
  · norm_num [simulate, simulateAux, cloopExample, cloopSysM, gainSysM,
      unitSysM, Param.update, stepTime, ETime.minQ, ETime.min]
  · norm_num
